import Mathlib

/-!
Shallow embedding of the Monte Carlo poker equity simulator
(monte_carlo_poker_equity.py): card encoding, 7-card hand evaluator,
hand comparison, the simulation loop, card-token parsing and
formatting, and the normal-approximation confidence interval.

Modelling conventions:
* a card is a natural number below 52, as in the source;
* Python floats are modelled as rationals;
* the pseudo-random sampler is an explicit oracle `draws` supplying the
  sampled card list of each iteration; the bound check performed by
  `random.sample` (which raises before consuming randomness when the
  requested size is out of range) is the `sampleError` branch;
* Python exceptions are `Option`/`Except` failures: an out-of-range
  list index or `max` of an empty list yields `none`, `ValueError`
  from parsing yields `Except.error`, `ZeroDivisionError` from
  `wins / iterations` yields the `zeroDivision` error.
-/

deriving instance DecidableEq for Except

/-- The rank character string `RANKS = "23456789TJQKA"` of the source. -/
def RANKS : List Char := ['2', '3', '4', '5', '6', '7', '8', '9', 'T', 'J', 'Q', 'K', 'A']

/-- The suit character string `SUITS = "cdhs"` of the source. -/
def SUITS : List Char := ['c', 'd', 'h', 's']

/-- `int_to_rank`: card value 0..51 to rank 2..14. -/
def int_to_rank (c : Nat) : Nat := c % 13 + 2

/-- `int_to_suit`: card value 0..51 to suit 0..3. -/
def int_to_suit (c : Nat) : Nat := c / 13

/-- `rank_counts[r]` of `evaluate_7`: how many of the cards have rank `r`. -/
def rankCount (cards : List Nat) (r : Nat) : Nat :=
  cards.countP (fun c => decide (int_to_rank c = r))

/-- `suit_counts[s]` of `evaluate_7`: how many of the cards have suit `s`. -/
def suitCount (cards : List Nat) (s : Nat) : Nat :=
  cards.countP (fun c => decide (int_to_suit c = s))

/-- The descending rank scan `range(14, 1, -1)` used throughout `evaluate_7`. -/
def descRanks : List Nat := [14, 13, 12, 11, 10, 9, 8, 7, 6, 5, 4, 3, 2]

/-- `unique_ranks`: ranks present among the cards, descending. -/
def unique_ranks (cards : List Nat) : List Nat :=
  descRanks.filter (fun r => decide (0 < rankCount cards r))

/-- `quads`: ranks of multiplicity 4, descending. -/
def quads (cards : List Nat) : List Nat :=
  descRanks.filter (fun r => decide (rankCount cards r = 4))

/-- `trips`: ranks of multiplicity 3, descending. -/
def trips (cards : List Nat) : List Nat :=
  descRanks.filter (fun r => decide (rankCount cards r = 3))

/-- `pairs`: ranks of multiplicity 2, descending. -/
def pairs (cards : List Nat) : List Nat :=
  descRanks.filter (fun r => decide (rankCount cards r = 2))

/-- The flush-suit scan of `evaluate_7`: first suit (in order 0,1,2,3) with
five or more cards, if any (`flush_suit` = -1 becomes `none`). -/
def flush_suit_of (cards : List Nat) : Option Nat :=
  [0, 1, 2, 3].find? (fun s => decide (5 ≤ suitCount cards s))

/-- OR together the bits `1 <<< r` of a list of ranks. -/
def maskOfRanks (rs : List Nat) : Nat :=
  rs.foldl (fun m r => m ||| (1 <<< r)) 0

/-- `rank_mask` of `evaluate_7`: presence bit per rank 2..14, plus the
synthetic ace-low bit 1 when an Ace is present. -/
def rank_mask (cards : List Nat) : Nat :=
  let base := maskOfRanks (unique_ranks cards)
  if 0 < rankCount cards 14 then base ||| (1 <<< 1) else base

/-- `flush_mask` of `evaluate_7`: presence bits of the ranks within the
flush suit, plus the synthetic ace-low bit 1 when the Ace is among them. -/
def flush_mask (cards : List Nat) (fs : Nat) : Nat :=
  let franks := (cards.filter (fun c => decide (int_to_suit c = fs))).map int_to_rank
  let base := maskOfRanks franks
  if franks.contains 14 then base ||| (1 <<< 1) else base

/-- The `need` bit pattern of `straight_high_from_ranks_mask`:
bits `high, high-1, ..., high-4`. -/
def needMask (high : Nat) : Nat :=
  [0, 1, 2, 3, 4].foldl (fun m d => m ||| (1 <<< (high - d))) 0

/-- `straight_high_from_ranks_mask`: the highest `high` in 14..5 whose five
consecutive rank bits are all in `mask`, else 0. -/
def straight_high_from_ranks_mask (mask : Nat) : Nat :=
  (([14, 13, 12, 11, 10, 9, 8, 7, 6, 5].find?
    (fun high => decide (mask &&& needMask high = needMask high))).getD 0)

/-- The straight-flush high of `evaluate_7`: 0 when there is no flush suit
or the flush-suit mask holds no straight. -/
def sf_high_of (cards : List Nat) : Nat :=
  match flush_suit_of cards with
  | some fs => straight_high_from_ranks_mask (flush_mask cards fs)
  | none => 0

/-- Insert into a descending-sorted list (used to model Python
`sorted(..., reverse=True)`). -/
def insertDesc (x : Nat) : List Nat → List Nat
  | [] => [x]
  | y :: ys => if y ≤ x then x :: y :: ys else y :: insertDesc x ys

/-- Sort descending, modelling `sorted(..., reverse=True)`. -/
def sortDesc (l : List Nat) : List Nat := l.foldr insertDesc []

/-- Python `max` over a list of ranks: `none` on the empty list
(where Python raises `ValueError`). -/
def pyMax : List Nat → Option Nat
  | [] => none
  | x :: xs => some (xs.foldl max x)

/-- `evaluate_7`: evaluate a 7-card hand to `(category, tiebreakers)`.
Out-of-range list accesses of the source (`ks[i]`, `pairs[0]`, `max` of an
empty list) are `none`.  The branch order is the source's: straight flush,
quads, full house, flush, straight, trips, two pair, one pair, high card. -/
def evaluate_7 (cards : List Nat) : Option (Nat × List Nat) :=
  if sf_high_of cards ≠ 0 then some (8, [sf_high_of cards]) else
  if quads cards ≠ [] then
    match quads cards with
    | q :: _ =>
      (pyMax ((unique_ranks cards).filter (fun r => decide (r ≠ q)))).map
        (fun k => (7, [q, k]))
    | [] => none
  else if trips cards ≠ [] ∧ (pairs cards ≠ [] ∨ 2 ≤ (trips cards).length) then
    match trips cards, pairs cards with
    | t1 :: t2 :: _, _ => some (6, [t1, t2])
    | [t1], p :: _ => some (6, [t1, p])
    | _, _ => none
  else match flush_suit_of cards with
  | some fs =>
    some (5, (sortDesc ((cards.filter
      (fun c => decide (int_to_suit c = fs))).map int_to_rank)).take 5)
  | none =>
    if straight_high_from_ranks_mask (rank_mask cards) ≠ 0 then
      some (4, [straight_high_from_ranks_mask (rank_mask cards)])
    else if trips cards ≠ [] then
      match trips cards with
      | t :: _ =>
        (match (unique_ranks cards).filter (fun r => decide (r ≠ t)) with
         | k1 :: k2 :: _ => some (3, [t, k1, k2])
         | _ => none)
      | [] => none
    else if 2 ≤ (pairs cards).length then
      match pairs cards with
      | p1 :: p2 :: _ =>
        (pyMax ((unique_ranks cards).filter
          (fun r => decide (r ≠ p1 ∧ r ≠ p2)))).map (fun k => (2, [p1, p2, k]))
      | _ => none
    else if (pairs cards).length = 1 then
      match pairs cards with
      | [p] =>
        (match (unique_ranks cards).filter (fun r => decide (r ≠ p)) with
         | k1 :: k2 :: k3 :: _ => some (1, [p, k1, k2, k3])
         | _ => none)
      | _ => none
    else some (0, (unique_ranks cards).take 5)

/-- Python tuple comparison `a > b` on the tiebreak sequences:
lexicographic, a strict prefix is smaller. -/
def tupGt : List Nat → List Nat → Bool
  | _ :: _, [] => true
  | [], _ => false
  | a :: as, b :: bs => if b < a then true else if a < b then false else tupGt as bs

/-- `compare_hands`: 1 if `a` beats `b`, -1 if `b` beats `a`, 0 on a tie. -/
def compare_hands (a b : Nat × List Nat) : Int :=
  if a.1 ≠ b.1 then (if b.1 < a.1 then 1 else -1)
  else if a.2 = b.2 then 0
  else if tupGt a.2 b.2 then 1 else -1

/-- `deck_without`: the 52-card deck minus the excluded cards, ascending. -/
def deck_without (excl : List Nat) : List Nat :=
  (List.range 52).filter (fun c => decide (¬ c ∈ excl))

/-- The failure modes of `simulate_equity` (Python exceptions):
`sampleError` is `random.sample`'s bound check, `zeroDivision` the
`wins / iterations` division, `evalError` an evaluator index error. -/
inductive SimError
  | sampleError
  | zeroDivision
  | evalError
deriving DecidableEq

/-- The tuple returned by `simulate_equity`. -/
structure SimResult where
  win_rate : ℚ
  equity : ℚ
  wins : Nat
  ties : Nat
  losses : Nat
deriving DecidableEq

/-- The inner opponent scan of one simulation iteration: threads
`(best_cmp, n_best)` exactly as the source loop does, breaking with
`(-1, 1)` as soon as an opponent strictly beats the hero. -/
def opp_loop (full_board : List Nat) (hero_eval : Nat × List Nat) :
    List (List Nat) → Int → Nat → Option (Int × Nat)
  | [], best_cmp, n_best => some (best_cmp, n_best)
  | oc :: rest, best_cmp, n_best =>
    match evaluate_7 (oc ++ full_board) with
    | none => none
    | some oe =>
      let c := compare_hands oe hero_eval
      if 0 < c then some (-1, 1)
      else if c = 0 then opp_loop full_board hero_eval rest 0 (n_best + 1)
      else opp_loop full_board hero_eval rest best_cmp n_best

/-- One simulation iteration on a fixed draw: the hero evaluation, the
opponent scan, and the resulting `(wins, ties, losses)` increment together
with the iteration's equity contribution. -/
def simulate_iteration (hero full_board : List Nat) (opp_cards : List (List Nat)) :
    Option ((Nat × Nat × Nat) × ℚ) :=
  match evaluate_7 (hero ++ full_board) with
  | none => none
  | some he =>
    match opp_loop full_board he opp_cards 1 1 with
    | none => none
    | some (bc, nb) =>
      if bc = 1 then some ((1, 0, 0), 1)
      else if bc = 0 then some ((0, 1, 0), (1 : ℚ) / (nb : ℚ))
      else some ((0, 0, 1), 0)

/-- The iteration loop of `simulate_equity`: `k` iterations remain, `i` is
the iteration index into the draw oracle, and the accumulator carries
`(wins, ties, losses, equity_shares)`. -/
def sim_loop (hero board : List Nat) (n_opponents : Nat) (base_deck : List Nat)
    (need_cards : Int) (draws : Nat → List Nat) :
    Nat → Nat → Nat × Nat × Nat × ℚ → Except SimError (Nat × Nat × Nat × ℚ)
  | 0, _, acc => .ok acc
  | k + 1, i, (w, t, l, es) =>
    if 0 ≤ need_cards ∧ need_cards ≤ (base_deck.length : Int) then
      let draw := draws i
      let opp_cards := (List.range n_opponents).map (fun j => (draw.drop (j * 2)).take 2)
      let runout := draw.drop (n_opponents * 2)
      match simulate_iteration hero (board ++ runout) opp_cards with
      | some ((dw, dt, dl), de) =>
        sim_loop hero board n_opponents base_deck need_cards draws k (i + 1)
          (w + dw, t + dt, l + dl, es + de)
      | none => .error .evalError
    else .error .sampleError

/-- `simulate_equity`: Monte Carlo equity simulation over `iterations`
iterations (a Python `int`, so an `Int` here), with the random samples
supplied by the oracle `draws`. -/
def simulate_equity (hero board : List Nat) (n_opponents : Nat) (iterations : Int)
    (draws : Nat → List Nat) : Except SimError SimResult :=
  let known := hero ++ board
  let base_deck := deck_without known
  let need_cards : Int := (n_opponents : Int) * 2 + (5 - (board.length : Int))
  match sim_loop hero board n_opponents base_deck need_cards draws
      iterations.toNat 0 (0, 0, 0, 0) with
  | .error e => .error e
  | .ok (w, t, l, es) =>
    if iterations = 0 then .error .zeroDivision
    else .ok ⟨(w : ℚ) / (iterations : ℚ), es / (iterations : ℚ), w, t, l⟩

/-- Whether an opponent hand strictly beats the given hero evaluation on
the given board (the comparison the source makes per opponent). -/
def beatsB (full_board : List Nat) (he : Nat × List Nat) (oc : List Nat) : Bool :=
  match evaluate_7 (oc ++ full_board) with
  | some oe => decide (0 < compare_hands oe he)
  | none => false

/-- Whether an opponent hand ties the given hero evaluation on the given
board. -/
def tiesB (full_board : List Nat) (he : Nat × List Nat) (oc : List Nat) : Bool :=
  match evaluate_7 (oc ++ full_board) with
  | some oe => decide (compare_hands oe he = 0)
  | none => false

/-- The whitespace set of Python `str.strip()` (ASCII fragment). -/
def pyIsSpace (c : Char) : Bool :=
  c = ' ' || c = '\t' || c = '\n' || c = '\r' || c = '\x0b' || c = '\x0c'

/-- Python `str.strip()`: drop leading and trailing whitespace. -/
def pyStrip (s : List Char) : List Char :=
  ((s.dropWhile pyIsSpace).reverse.dropWhile pyIsSpace).reverse

/-- Python `str.upper()` on one character (ASCII fragment). -/
def pyUpper (c : Char) : Char :=
  if 'a' ≤ c ∧ c ≤ 'z' then Char.ofNat (c.toNat - 32) else c

/-- Python `str.lower()` on one character (ASCII fragment). -/
def pyLower (c : Char) : Char :=
  if 'A' ≤ c ∧ c ≤ 'Z' then Char.ofNat (c.toNat + 32) else c

/-- Python `str.index` restricted to one character: the first index of `c`
in `l`, `none` when absent (where Python raises `ValueError`). -/
def idxOf? (l : List Char) (c : Char) : Option Nat :=
  match l with
  | [] => none
  | x :: xs => if x = c then some 0 else (idxOf? xs c).map (· + 1)

/-- `card_str_to_int`: strip the token, require exactly two characters,
upper-case the rank character, lower-case the suit character, and look
both up; the card value is `s_idx * 13 + r_idx`. -/
def card_str_to_int (tok : List Char) : Except Unit Nat :=
  match pyStrip tok with
  | [c0, c1] =>
    match idxOf? RANKS (pyUpper c0), idxOf? SUITS (pyLower c1) with
    | some ri, some si => .ok (si * 13 + ri)
    | _, _ => .error ()
  | _ => .error ()

/-- Whether `card_str_to_int` succeeds on the token. -/
def parse_ok (tok : List Char) : Bool :=
  match card_str_to_int tok with
  | .ok _ => true
  | .error _ => false

/-- One card of `format_cards`: `RANKS[c % 13]` then `SUITS[c // 13]`
(defined for card values below 52, where the source indexing is in
range). -/
def format_card (c : Nat) : List Char :=
  [RANKS.getD (c % 13) '?', SUITS.getD (c / 13) '?']

/-- `format_cards`: the cards formatted and joined by single spaces. -/
def format_cards (cs : List Nat) : List Char :=
  List.intercalate [' '] (cs.map format_card)

/-- The `ci` helper of `main`: 95% normal-approximation confidence
interval.  The square root on floats is abstracted as a function
argument (the `n = 0` guard branch never calls it); 1.96 is 196/100. -/
def ci (sqrtf : ℚ → ℚ) (n : Int) (p : ℚ) : ℚ × ℚ :=
  let se := if 0 < n then sqrtf (p * (1 - p) / (n : ℚ)) else 0
  (max 0 (p - 196 / 100 * se), min 1 (p + 196 / 100 * se))

/-! ### Basic facts about the rank scan -/

lemma descRanks_nodup : descRanks.Nodup := by decide

lemma descRanks_sorted : descRanks.Pairwise (fun a b => b < a) := by decide

lemma mem_descRanks (r : Nat) : r ∈ descRanks ↔ 2 ≤ r ∧ r ≤ 14 := by
  simp only [descRanks, List.mem_cons, List.not_mem_nil, or_false]
  omega

lemma rankCount_cons (c : Nat) (cs : List Nat) (r : Nat) :
    rankCount (c :: cs) r = rankCount cs r + (if int_to_rank c = r then 1 else 0) := by
  simp [rankCount, List.countP_cons]

lemma sum_indicator_descRanks (rk : Nat) (h2 : 2 ≤ rk) (h14 : rk ≤ 14) :
    (descRanks.map (fun r => if rk = r then 1 else 0)).sum = 1 := by
  interval_cases rk <;> decide

lemma sum_rankCount (cards : List Nat) :
    (descRanks.map (rankCount cards)).sum = cards.length := by
  induction cards with
  | nil => decide
  | cons c cs ih =>
    have h : descRanks.map (rankCount (c :: cs)) =
        descRanks.map (fun r => rankCount cs r + (if int_to_rank c = r then 1 else 0)) :=
      List.map_congr_left (fun r _ => rankCount_cons c cs r)
    have h2 : 2 ≤ int_to_rank c := by simp [int_to_rank]
    have h14 : int_to_rank c ≤ 14 := by
      have := Nat.mod_lt c (show 0 < 13 by decide)
      simp only [int_to_rank]
      omega
    rw [h, List.sum_map_add, ih, sum_indicator_descRanks (int_to_rank c) h2 h14]
    simp

lemma sum_map_remove (l : List Nat) (f : Nat → Nat) (t : Nat) (hnd : l.Nodup) (ht : t ∈ l) :
    (l.map f).sum = f t + ((l.filter (fun r => decide (r ≠ t))).map f).sum := by
  induction l with
  | nil => cases ht
  | cons x xs ih =>
    rw [List.nodup_cons] at hnd
    rcases List.mem_cons.mp ht with rfl | htxs
    · have hself : xs.filter (fun r => decide (r ≠ t)) = xs := by
        apply List.filter_eq_self.mpr
        intro a ha
        exact decide_eq_true (fun h => hnd.1 (h ▸ ha))
      rw [List.filter_cons, if_neg (by simp), hself]
      simp
    · have hxt : x ≠ t := fun h => hnd.1 (h ▸ htxs)
      rw [List.filter_cons, if_pos (by simp [hxt])]
      simp only [List.map_cons, List.sum_cons]
      rw [ih hnd.2 htxs]
      omega

lemma sum_le_filter_pos (l : List Nat) (f : Nat → Nat) (h : ∀ r ∈ l, f r ≤ 1) :
    (l.map f).sum ≤ (l.filter (fun r => decide (0 < f r))).length := by
  induction l with
  | nil => simp
  | cons x xs ih =>
    have hx := h x (List.mem_cons_self x xs)
    have ihx := ih (fun r hr => h r (List.mem_cons_of_mem _ hr))
    simp only [List.map_cons, List.sum_cons, List.filter_cons]
    by_cases h0 : 0 < f x
    · rw [if_pos (by simpa using h0)]
      simp only [List.length_cons]
      omega
    · rw [if_neg (by simpa using h0)]
      omega

lemma exists_pos_of_sum_pos (l : List Nat) (f : Nat → Nat) (h : 0 < (l.map f).sum) :
    ∃ r ∈ l, 0 < f r := by
  induction l with
  | nil => simp at h
  | cons x xs ih =>
    simp only [List.map_cons, List.sum_cons] at h
    by_cases hx : 0 < f x
    · exact ⟨x, List.mem_cons_self x xs, hx⟩
    · have hxs : 0 < (xs.map f).sum := by omega
      obtain ⟨r, hr, hfr⟩ := ih hxs
      exact ⟨r, List.mem_cons_of_mem _ hr, hfr⟩

lemma le_sum_of_mem (l : List Nat) (f : Nat → Nat) (t : Nat) (ht : t ∈ l) :
    f t ≤ (l.map f).sum := by
  induction l with
  | nil => cases ht
  | cons x xs ih =>
    simp only [List.map_cons, List.sum_cons]
    rcases List.mem_cons.mp ht with rfl | h
    · exact Nat.le_add_right _ _
    · have := ih h
      omega

lemma rankCount_le_four (cards : List Nat) (hnd : cards.Nodup) (hv : ∀ c ∈ cards, c < 52)
    (r : Nat) : rankCount cards r ≤ 4 := by
  have h1 : rankCount cards r =
      (cards.filter (fun c => decide (int_to_rank c = r))).length :=
    List.countP_eq_length_filter _ _
  have hsub : cards.filter (fun c => decide (int_to_rank c = r)) ⊆
      [r - 2, r + 11, r + 24, r + 37] := by
    intro x hx
    obtain ⟨hxc, hxr⟩ := List.mem_filter.mp hx
    have h52 := hv x hxc
    have hr : x % 13 + 2 = r := of_decide_eq_true hxr
    simp only [List.mem_cons, List.not_mem_nil, or_false]
    omega
  have hnd' : (cards.filter (fun c => decide (int_to_rank c = r))).Nodup := hnd.filter _
  have hlen := (hnd'.subperm hsub).length_le
  simp only [List.length_cons, List.length_nil] at hlen
  omega

lemma mem_descRanks_of_pos (cards : List Nat) (r : Nat) (h : 0 < rankCount cards r) :
    r ∈ descRanks := by
  obtain ⟨c, _, hcr⟩ := List.countP_pos_iff.mp h
  have hr : c % 13 + 2 = r := of_decide_eq_true hcr
  rw [mem_descRanks]
  omega

/-! ### Filters over the descending rank scan -/

lemma filter_swap (l : List Nat) (p q : Nat → Bool) :
    (l.filter q).filter p = (l.filter p).filter q := by
  rw [List.filter_filter, List.filter_filter]
  apply List.filter_congr
  intro a _
  exact Bool.and_comm _ _

lemma filter_eq_single_of (l : List Nat) (p : Nat → Bool) (t : Nat)
    (hs : l.Pairwise (fun u v => v < u)) (ht : t ∈ l)
    (hp : ∀ x ∈ l, p x = true ↔ x = t) : l.filter p = [t] := by
  induction l with
  | nil => cases ht
  | cons x xs ih =>
    rw [List.pairwise_cons] at hs
    rcases List.mem_cons.mp ht with rfl | htxs
    · have hpx : p t = true := (hp t (List.mem_cons_self _ _)).mpr rfl
      have hrest : xs.filter p = [] := by
        rw [List.filter_eq_nil_iff]
        intro a ha hpa
        have hax := (hp a (List.mem_cons_of_mem _ ha)).mp hpa
        have := hs.1 a ha
        omega
      rw [List.filter_cons, if_pos (by simp [hpx]), hrest]
    · have hxf : p x = false := by
        rcases hb : p x with _ | _
        · rfl
        · have hxt := (hp x (List.mem_cons_self _ _)).mp hb
          have := hs.1 t htxs
          exfalso
          omega
      rw [List.filter_cons, if_neg (by simp [hxf])]
      exact ih hs.2 htxs (fun a ha => hp a (List.mem_cons_of_mem _ ha))

lemma filter_eq_pair_of (l : List Nat) (p : Nat → Bool) (a b : Nat)
    (hs : l.Pairwise (fun u v => v < u)) (ha : a ∈ l) (hb : b ∈ l) (hba : b < a)
    (hp : ∀ x ∈ l, p x = true ↔ (x = a ∨ x = b)) : l.filter p = [a, b] := by
  induction l with
  | nil => cases ha
  | cons x xs ih =>
    rw [List.pairwise_cons] at hs
    rcases List.mem_cons.mp ha with rfl | haxs
    · have hpx : p a = true := (hp a (List.mem_cons_self _ _)).mpr (Or.inl rfl)
      have hbxs : b ∈ xs := by
        rcases List.mem_cons.mp hb with h | h
        · omega
        · exact h
      have hrest : xs.filter p = [b] := by
        apply filter_eq_single_of xs p b hs.2 hbxs
        intro y hy
        constructor
        · intro hpy
          rcases (hp y (List.mem_cons_of_mem _ hy)).mp hpy with h | h
          · have := hs.1 y hy
            omega
          · exact h
        · intro h
          exact (hp y (List.mem_cons_of_mem _ hy)).mpr (Or.inr h)
      rw [List.filter_cons, if_pos (by simp [hpx]), hrest]
    · have hax : a < x := hs.1 a haxs
      have hxf : p x = false := by
        rcases hbx : p x with _ | _
        · rfl
        · exfalso
          rcases (hp x (List.mem_cons_self _ _)).mp hbx with h | h <;> omega
      have hbxs : b ∈ xs := by
        rcases List.mem_cons.mp hb with h | h
        · omega
        · exact h
      rw [List.filter_cons, if_neg (by simp [hxf])]
      exact ih hs.2 haxs hbxs (fun y hy => hp y (List.mem_cons_of_mem _ hy))

lemma filter_head_max (l : List Nat) (p : Nat → Bool)
    (hs : l.Pairwise (fun u v => v < u)) :
    ∀ x xs, l.filter p = x :: xs → p x = true ∧ ∀ y ∈ l, p y = true → y ≤ x := by
  induction l with
  | nil => intro x xs h; simp at h
  | cons z zs ih =>
    intro x xs h
    rw [List.pairwise_cons] at hs
    rw [List.filter_cons] at h
    by_cases hz : p z = true
    · rw [if_pos (by simp [hz])] at h
      injection h with h1 _
      subst h1
      refine ⟨hz, ?_⟩
      intro y hy _
      rcases List.mem_cons.mp hy with rfl | hyzs
      · exact le_refl _
      · exact le_of_lt (hs.1 y hyzs)
    · rw [if_neg (by simp [hz])] at h
      obtain ⟨hpx, hmax⟩ := ih hs.2 x xs h
      refine ⟨hpx, ?_⟩
      intro y hy hpy
      rcases List.mem_cons.mp hy with rfl | hyzs
      · exact absurd hpy hz
      · exact hmax y hyzs hpy

lemma exists_cons2 (l : List Nat) (h : 2 ≤ l.length) : ∃ a b t, l = a :: b :: t := by
  match l, h with
  | a :: b :: t, _ => exact ⟨a, b, t, rfl⟩

lemma exists_cons3 (l : List Nat) (h : 3 ≤ l.length) : ∃ a b c t, l = a :: b :: c :: t := by
  match l, h with
  | a :: b :: c :: t, _ => exact ⟨a, b, c, t, rfl⟩

lemma pyMax_isSome (l : List Nat) (h : l ≠ []) : ∃ k, pyMax l = some k := by
  cases l with
  | nil => exact absurd rfl h
  | cons x xs => exact ⟨_, rfl⟩

/-- The main counting step: if every rank other than `t` occurs at most
once, the cards are at most `t`'s multiplicity plus the number of other
present ranks. -/
lemma length_le_of_unique_others (cards : List Nat) (t : Nat) (ht : t ∈ descRanks)
    (hle : ∀ r ∈ descRanks, r ≠ t → rankCount cards r ≤ 1) :
    cards.length ≤ rankCount cards t +
      ((unique_ranks cards).filter (fun r => decide (r ≠ t))).length := by
  have h1 := sum_rankCount cards
  have h2 := sum_map_remove descRanks (rankCount cards) t descRanks_nodup ht
  have h3 : ((descRanks.filter (fun r => decide (r ≠ t))).map (rankCount cards)).sum ≤
      ((descRanks.filter (fun r => decide (r ≠ t))).filter
        (fun r => decide (0 < rankCount cards r))).length := by
    apply sum_le_filter_pos
    intro r hr
    obtain ⟨hrd, hrt⟩ := List.mem_filter.mp hr
    exact hle r hrd (of_decide_eq_true hrt)
  rw [filter_swap] at h3
  rw [← unique_ranks] at h3
  omega

/-! ### Branch-reduction lemmas for the evaluator -/

lemma evaluate_7_sf_red (cards : List Nat) (h : sf_high_of cards ≠ 0) :
    evaluate_7 cards = some (8, [sf_high_of cards]) := by
  simp only [evaluate_7]
  rw [if_pos h]

lemma evaluate_7_quads_red (cards : List Nat) (q k : Nat) (qt : List Nat)
    (hsf : sf_high_of cards = 0) (hq : quads cards = q :: qt)
    (hk : pyMax ((unique_ranks cards).filter (fun r => decide (r ≠ q))) = some k) :
    evaluate_7 cards = some (7, [q, k]) := by
  simp only [evaluate_7]
  rw [if_neg (by simp [hsf]), if_pos (by simp [hq]), hq]
  simp only [ne_eq, decide_not] at hk
  simp [hk]

lemma evaluate_7_fh_two_red (cards : List Nat) (t1 t2 : Nat) (tt : List Nat)
    (hsf : sf_high_of cards = 0) (hq : quads cards = [])
    (ht : trips cards = t1 :: t2 :: tt) :
    evaluate_7 cards = some (6, [t1, t2]) := by
  have h3 : trips cards ≠ [] ∧ (pairs cards ≠ [] ∨ 2 ≤ (trips cards).length) := by
    rw [ht]
    refine ⟨by simp, Or.inr ?_⟩
    rw [List.length_cons, List.length_cons]
    omega
  simp only [evaluate_7]
  rw [if_neg (by simp [hsf]), if_neg (by simp [hq]), if_pos h3, ht]

lemma evaluate_7_fh_one_red (cards : List Nat) (t p : Nat) (pt : List Nat)
    (hsf : sf_high_of cards = 0) (hq : quads cards = [])
    (ht : trips cards = [t]) (hp : pairs cards = p :: pt) :
    evaluate_7 cards = some (6, [t, p]) := by
  have h3 : trips cards ≠ [] ∧ (pairs cards ≠ [] ∨ 2 ≤ (trips cards).length) := by
    exact ⟨by simp [ht], Or.inl (by simp [hp])⟩
  simp only [evaluate_7]
  rw [if_neg (by simp [hsf]), if_neg (by simp [hq]), if_pos h3, ht, hp]

lemma evaluate_7_flush_red (cards : List Nat) (fs : Nat)
    (hsf : sf_high_of cards = 0) (hq : quads cards = [])
    (hfh : ¬ (trips cards ≠ [] ∧ (pairs cards ≠ [] ∨ 2 ≤ (trips cards).length)))
    (hfs : flush_suit_of cards = some fs) :
    evaluate_7 cards = some (5, (sortDesc ((cards.filter
      (fun c => decide (int_to_suit c = fs))).map int_to_rank)).take 5) := by
  simp only [evaluate_7]
  rw [if_neg (by simp [hsf]), if_neg (by simp [hq]), if_neg hfh, hfs]

lemma evaluate_7_straight_red (cards : List Nat)
    (hsf : sf_high_of cards = 0) (hq : quads cards = [])
    (hfh : ¬ (trips cards ≠ [] ∧ (pairs cards ≠ [] ∨ 2 ≤ (trips cards).length)))
    (hfs : flush_suit_of cards = none)
    (hst : straight_high_from_ranks_mask (rank_mask cards) ≠ 0) :
    evaluate_7 cards = some (4, [straight_high_from_ranks_mask (rank_mask cards)]) := by
  simp only [evaluate_7]
  rw [if_neg (by simp [hsf]), if_neg (by simp [hq]), if_neg hfh, hfs]
  rw [if_pos hst]

lemma evaluate_7_trips_red (cards : List Nat) (t k1 k2 : Nat) (tt kr : List Nat)
    (hsf : sf_high_of cards = 0) (hq : quads cards = [])
    (hfh : ¬ (trips cards ≠ [] ∧ (pairs cards ≠ [] ∨ 2 ≤ (trips cards).length)))
    (hfs : flush_suit_of cards = none)
    (hst : straight_high_from_ranks_mask (rank_mask cards) = 0)
    (ht : trips cards = t :: tt)
    (hks : (unique_ranks cards).filter (fun r => decide (r ≠ t)) = k1 :: k2 :: kr) :
    evaluate_7 cards = some (3, [t, k1, k2]) := by
  simp only [evaluate_7]
  rw [if_neg (by simp [hsf]), if_neg (by simp [hq]), if_neg hfh, hfs]
  rw [if_neg (by simp [hst]), if_pos (by simp [ht]), ht]
  simp only [ne_eq, decide_not] at hks
  simp [hks]

lemma evaluate_7_twopair_red (cards : List Nat) (p1 p2 k : Nat) (pr : List Nat)
    (hsf : sf_high_of cards = 0) (hq : quads cards = [])
    (hfh : ¬ (trips cards ≠ [] ∧ (pairs cards ≠ [] ∨ 2 ≤ (trips cards).length)))
    (hfs : flush_suit_of cards = none)
    (hst : straight_high_from_ranks_mask (rank_mask cards) = 0)
    (htr : trips cards = []) (hp : pairs cards = p1 :: p2 :: pr)
    (hk : pyMax ((unique_ranks cards).filter
      (fun r => decide (r ≠ p1 ∧ r ≠ p2))) = some k) :
    evaluate_7 cards = some (2, [p1, p2, k]) := by
  have h2 : 2 ≤ (pairs cards).length := by
    rw [hp, List.length_cons, List.length_cons]
    omega
  simp only [evaluate_7]
  rw [if_neg (by simp [hsf]), if_neg (by simp [hq]), if_neg hfh, hfs]
  rw [if_neg (by simp [hst]), if_neg (by simp [htr]), if_pos h2, hp]
  simp only [ne_eq, Bool.decide_and, decide_not] at hk
  simp [hk]

lemma evaluate_7_onepair_red (cards : List Nat) (p k1 k2 k3 : Nat) (kr : List Nat)
    (hsf : sf_high_of cards = 0) (hq : quads cards = [])
    (hfh : ¬ (trips cards ≠ [] ∧ (pairs cards ≠ [] ∨ 2 ≤ (trips cards).length)))
    (hfs : flush_suit_of cards = none)
    (hst : straight_high_from_ranks_mask (rank_mask cards) = 0)
    (htr : trips cards = []) (hp : pairs cards = [p])
    (hks : (unique_ranks cards).filter (fun r => decide (r ≠ p)) = k1 :: k2 :: k3 :: kr) :
    evaluate_7 cards = some (1, [p, k1, k2, k3]) := by
  simp only [evaluate_7]
  rw [if_neg (by simp [hsf]), if_neg (by simp [hq]), if_neg hfh, hfs]
  rw [if_neg (by simp [hst]), if_neg (by simp [htr]), if_neg (by simp [hp]),
    if_pos (by simp [hp]), hp]
  simp only [ne_eq, decide_not] at hks
  simp [hks]

lemma evaluate_7_high_red (cards : List Nat)
    (hsf : sf_high_of cards = 0) (hq : quads cards = [])
    (hfh : ¬ (trips cards ≠ [] ∧ (pairs cards ≠ [] ∨ 2 ≤ (trips cards).length)))
    (hfs : flush_suit_of cards = none)
    (hst : straight_high_from_ranks_mask (rank_mask cards) = 0)
    (htr : trips cards = []) (hp : pairs cards = []) :
    evaluate_7 cards = some (0, (unique_ranks cards).take 5) := by
  simp only [evaluate_7]
  rw [if_neg (by simp [hsf]), if_neg (by simp [hq]), if_neg hfh, hfs]
  rw [if_neg (by simp [hst]), if_neg (by simp [htr]), if_neg (by simp [hp]),
    if_neg (by simp [hp])]

/-! ### Totality of the evaluator on seven distinct cards -/

lemma evaluate_7_total_aux (cards : List Nat) (h7 : cards.length = 7)
    (hnd : cards.Nodup) (hv : ∀ c ∈ cards, c < 52)
    (hsf : sf_high_of cards = 0) (hq : quads cards = [])
    (hfh : ¬ (trips cards ≠ [] ∧ (pairs cards ≠ [] ∨ 2 ≤ (trips cards).length)))
    (hfs : flush_suit_of cards = none) :
    ∃ res, evaluate_7 cards = some res ∧ (res.1 = 0 → res.2.length = 5) := by
  have hle4 : ∀ r, rankCount cards r ≤ 4 := rankCount_le_four cards hnd hv
  have hsum : (descRanks.map (rankCount cards)).sum = 7 := by rw [sum_rankCount, h7]
  by_cases hst : straight_high_from_ranks_mask (rank_mask cards) ≠ 0
  · exact ⟨(4, [straight_high_from_ranks_mask (rank_mask cards)]),
      evaluate_7_straight_red cards hsf hq hfh hfs hst, by intro h; simp at h⟩
  push_neg at hst
  by_cases htn : trips cards ≠ []
  · -- three of a kind
    obtain ⟨t, tt, hte⟩ := List.exists_cons_of_ne_nil htn
    have h5 : ¬ (pairs cards ≠ [] ∨ 2 ≤ (trips cards).length) := fun h => hfh ⟨htn, h⟩
    push_neg at h5
    have hp0 : pairs cards = [] := h5.1
    have htrips : trips cards = [t] := by
      rcases tt with _ | ⟨x, xs⟩
      · exact hte
      · rw [hte] at h5
        simp only [List.length_cons] at h5
        omega
    have htm : t ∈ descRanks ∧ rankCount cards t = 3 := by
      have : t ∈ trips cards := by rw [htrips]; exact List.mem_cons_self _ _
      obtain ⟨h1, h2⟩ := List.mem_filter.mp this
      exact ⟨h1, of_decide_eq_true h2⟩
    have hother : ∀ r ∈ descRanks, r ≠ t → rankCount cards r ≤ 1 := by
      intro r hrd hrt
      have h4 : rankCount cards r ≠ 4 := by
        intro h
        have : r ∈ quads cards := List.mem_filter.mpr ⟨hrd, decide_eq_true h⟩
        rw [hq] at this
        cases this
      have h3 : rankCount cards r ≠ 3 := by
        intro h
        have : r ∈ trips cards := List.mem_filter.mpr ⟨hrd, decide_eq_true h⟩
        rw [htrips] at this
        simp at this
        exact hrt this
      have h2 : rankCount cards r ≠ 2 := by
        intro h
        have : r ∈ pairs cards := List.mem_filter.mpr ⟨hrd, decide_eq_true h⟩
        rw [hp0] at this
        cases this
      have := hle4 r
      omega
    have hlen := length_le_of_unique_others cards t htm.1 hother
    have hks2 : 2 ≤ ((unique_ranks cards).filter (fun r => decide (r ≠ t))).length := by
      omega
    obtain ⟨k1, k2, kr, hkse⟩ := exists_cons2 _ hks2
    exact ⟨(3, [t, k1, k2]),
      evaluate_7_trips_red cards t k1 k2 [] kr hsf hq hfh hfs hst htrips hkse,
      by intro h; simp at h⟩
  push_neg at htn
  by_cases hp2 : 2 ≤ (pairs cards).length
  · -- two pair
    obtain ⟨p1, p2, pr, hpe⟩ := exists_cons2 _ hp2
    have hp1m : p1 ∈ descRanks ∧ rankCount cards p1 = 2 := by
      have : p1 ∈ pairs cards := by rw [hpe]; exact List.mem_cons_self _ _
      obtain ⟨h1, h2⟩ := List.mem_filter.mp this
      exact ⟨h1, of_decide_eq_true h2⟩
    have hp2m : p2 ∈ descRanks ∧ rankCount cards p2 = 2 := by
      have : p2 ∈ pairs cards := by
        rw [hpe]
        exact List.mem_cons_of_mem _ (List.mem_cons_self _ _)
      obtain ⟨h1, h2⟩ := List.mem_filter.mp this
      exact ⟨h1, of_decide_eq_true h2⟩
    have hne : p2 ≠ p1 := by
      have hnodup : (pairs cards).Nodup := descRanks_nodup.filter _
      rw [hpe, List.nodup_cons] at hnodup
      intro h
      exact hnodup.1 (h ▸ List.mem_cons_self _ _)
    have h1 := sum_map_remove descRanks (rankCount cards) p1 descRanks_nodup hp1m.1
    have hmem2 : p2 ∈ descRanks.filter (fun r => decide (r ≠ p1)) :=
      List.mem_filter.mpr ⟨hp2m.1, decide_eq_true hne⟩
    have h2 := sum_map_remove (descRanks.filter (fun r => decide (r ≠ p1)))
      (rankCount cards) p2 (descRanks_nodup.filter _) hmem2
    have hpos : 0 < (((descRanks.filter (fun r => decide (r ≠ p1))).filter
        (fun r => decide (r ≠ p2))).map (rankCount cards)).sum := by
      omega
    obtain ⟨r, hr, hrpos⟩ := exists_pos_of_sum_pos _ _ hpos
    obtain ⟨hr1, hrneq2⟩ := List.mem_filter.mp hr
    obtain ⟨hrd, hrneq1⟩ := List.mem_filter.mp hr1
    have hrmem : r ∈ (unique_ranks cards).filter
        (fun x => decide (x ≠ p1 ∧ x ≠ p2)) := by
      apply List.mem_filter.mpr
      refine ⟨List.mem_filter.mpr ⟨hrd, decide_eq_true hrpos⟩, ?_⟩
      exact decide_eq_true ⟨of_decide_eq_true hrneq1, of_decide_eq_true hrneq2⟩
    obtain ⟨k, hk⟩ := pyMax_isSome _ (List.ne_nil_of_mem hrmem)
    exact ⟨(2, [p1, p2, k]),
      evaluate_7_twopair_red cards p1 p2 k pr hsf hq hfh hfs hst htn hpe hk,
      by intro h; simp at h⟩
  by_cases hp1 : (pairs cards).length = 1
  · -- one pair
    obtain ⟨p, hpe⟩ : ∃ p, pairs cards = [p] := by
      rcases hpc : pairs cards with _ | ⟨p, pt⟩
      · rw [hpc] at hp1
        simp at hp1
      · rcases pt with _ | ⟨x, xs⟩
        · exact ⟨p, rfl⟩
        · rw [hpc] at hp1
          simp at hp1
    have hpm : p ∈ descRanks ∧ rankCount cards p = 2 := by
      have : p ∈ pairs cards := by rw [hpe]; exact List.mem_cons_self _ _
      obtain ⟨h1, h2⟩ := List.mem_filter.mp this
      exact ⟨h1, of_decide_eq_true h2⟩
    have hother : ∀ r ∈ descRanks, r ≠ p → rankCount cards r ≤ 1 := by
      intro r hrd hrp
      have h4 : rankCount cards r ≠ 4 := by
        intro h
        have : r ∈ quads cards := List.mem_filter.mpr ⟨hrd, decide_eq_true h⟩
        rw [hq] at this
        cases this
      have h3 : rankCount cards r ≠ 3 := by
        intro h
        have : r ∈ trips cards := List.mem_filter.mpr ⟨hrd, decide_eq_true h⟩
        rw [htn] at this
        cases this
      have h2 : rankCount cards r ≠ 2 := by
        intro h
        have : r ∈ pairs cards := List.mem_filter.mpr ⟨hrd, decide_eq_true h⟩
        rw [hpe] at this
        simp at this
        exact hrp this
      have := hle4 r
      omega
    have hlen := length_le_of_unique_others cards p hpm.1 hother
    have hks3 : 3 ≤ ((unique_ranks cards).filter (fun r => decide (r ≠ p))).length := by
      omega
    obtain ⟨k1, k2, k3, kr, hkse⟩ := exists_cons3 _ hks3
    exact ⟨(1, [p, k1, k2, k3]),
      evaluate_7_onepair_red cards p k1 k2 k3 kr hsf hq hfh hfs hst htn hpe hkse,
      by intro h; simp at h⟩
  -- high card
  have hpe : pairs cards = [] := by
    rcases hpc : pairs cards with _ | ⟨p, pt⟩
    · rfl
    · rw [hpc] at hp2 hp1
      simp only [List.length_cons] at hp2 hp1
      omega
  have hall : ∀ r ∈ descRanks, rankCount cards r ≤ 1 := by
    intro r hrd
    have h4 : rankCount cards r ≠ 4 := by
      intro h
      have : r ∈ quads cards := List.mem_filter.mpr ⟨hrd, decide_eq_true h⟩
      rw [hq] at this
      cases this
    have h3 : rankCount cards r ≠ 3 := by
      intro h
      have : r ∈ trips cards := List.mem_filter.mpr ⟨hrd, decide_eq_true h⟩
      rw [htn] at this
      cases this
    have h2 : rankCount cards r ≠ 2 := by
      intro h
      have : r ∈ pairs cards := List.mem_filter.mpr ⟨hrd, decide_eq_true h⟩
      rw [hpe] at this
      cases this
    have := hle4 r
    omega
  have hsum_le := sum_le_filter_pos descRanks (rankCount cards) hall
  have hu : 7 ≤ (unique_ranks cards).length := by
    rw [unique_ranks]
    omega
  refine ⟨(0, (unique_ranks cards).take 5),
    evaluate_7_high_red cards hsf hq hfh hfs hst htn hpe, ?_⟩
  intro _
  simp only [List.length_take]
  omega

lemma evaluate_7_total (cards : List Nat) (h7 : cards.length = 7)
    (hnd : cards.Nodup) (hv : ∀ c ∈ cards, c < 52) :
    ∃ res, evaluate_7 cards = some res ∧ (res.1 = 0 → res.2.length = 5) := by
  have hsum : (descRanks.map (rankCount cards)).sum = 7 := by rw [sum_rankCount, h7]
  by_cases hsf : sf_high_of cards ≠ 0
  · exact ⟨(8, [sf_high_of cards]), evaluate_7_sf_red cards hsf, by intro h; simp at h⟩
  push_neg at hsf
  by_cases hqn : quads cards ≠ []
  · -- four of a kind
    obtain ⟨q, qt, hqe⟩ := List.exists_cons_of_ne_nil hqn
    have hqm : q ∈ descRanks ∧ rankCount cards q = 4 := by
      have : q ∈ quads cards := by rw [hqe]; exact List.mem_cons_self _ _
      obtain ⟨h1, h2⟩ := List.mem_filter.mp this
      exact ⟨h1, of_decide_eq_true h2⟩
    have hrem := sum_map_remove descRanks (rankCount cards) q descRanks_nodup hqm.1
    have hpos : 0 < ((descRanks.filter (fun r => decide (r ≠ q))).map
        (rankCount cards)).sum := by
      omega
    obtain ⟨r, hr, hrpos⟩ := exists_pos_of_sum_pos _ _ hpos
    obtain ⟨hrd, hrq⟩ := List.mem_filter.mp hr
    have hrmem : r ∈ (unique_ranks cards).filter (fun x => decide (x ≠ q)) :=
      List.mem_filter.mpr ⟨List.mem_filter.mpr ⟨hrd, decide_eq_true hrpos⟩, hrq⟩
    obtain ⟨k, hk⟩ := pyMax_isSome _ (List.ne_nil_of_mem hrmem)
    exact ⟨(7, [q, k]), evaluate_7_quads_red cards q k qt hsf hqe hk,
      by intro h; simp at h⟩
  push_neg at hqn
  by_cases hfh : trips cards ≠ [] ∧ (pairs cards ≠ [] ∨ 2 ≤ (trips cards).length)
  · -- full house
    obtain ⟨t, tt, hte⟩ := List.exists_cons_of_ne_nil hfh.1
    rcases tt with _ | ⟨t2, tt2⟩
    · rcases hfh.2 with hpne | hlen
      · obtain ⟨p, pt, hpe⟩ := List.exists_cons_of_ne_nil hpne
        exact ⟨(6, [t, p]), evaluate_7_fh_one_red cards t p pt hsf hqn hte hpe,
          by intro h; simp at h⟩
      · rw [hte] at hlen
        simp at hlen
    · exact ⟨(6, [t, t2]), evaluate_7_fh_two_red cards t t2 tt2 hsf hqn hte,
        by intro h; simp at h⟩
  cases hfs : flush_suit_of cards with
  | some fs =>
    exact ⟨(5, (sortDesc ((cards.filter
        (fun c => decide (int_to_suit c = fs))).map int_to_rank)).take 5),
      evaluate_7_flush_red cards fs hsf hqn hfh hfs, by intro h; simp at h⟩
  | none => exact evaluate_7_total_aux cards h7 hnd hv hsf hqn hfh hfs

lemma two_counts_le (cards : List Nat) (a b : Nat) (hba : b ≠ a)
    (ha : a ∈ descRanks) (hb : b ∈ descRanks) :
    rankCount cards a + rankCount cards b ≤ cards.length := by
  have h1 := sum_map_remove descRanks (rankCount cards) a descRanks_nodup ha
  have hbm : b ∈ descRanks.filter (fun r => decide (r ≠ a)) :=
    List.mem_filter.mpr ⟨hb, decide_eq_true hba⟩
  have h2 := le_sum_of_mem _ (rankCount cards) b hbm
  have h3 := sum_rankCount cards
  omega

lemma three_counts_le (cards : List Nat) (a b c : Nat) (hba : b ≠ a) (hca : c ≠ a)
    (hcb : c ≠ b) (ha : a ∈ descRanks) (hb : b ∈ descRanks) (hc : c ∈ descRanks) :
    rankCount cards a + rankCount cards b + rankCount cards c ≤ cards.length := by
  have h1 := sum_map_remove descRanks (rankCount cards) a descRanks_nodup ha
  have hbm : b ∈ descRanks.filter (fun r => decide (r ≠ a)) :=
    List.mem_filter.mpr ⟨hb, decide_eq_true hba⟩
  have h2 := sum_map_remove (descRanks.filter (fun r => decide (r ≠ a)))
    (rankCount cards) b (descRanks_nodup.filter _) hbm
  have hcm : c ∈ (descRanks.filter (fun r => decide (r ≠ a))).filter
      (fun r => decide (r ≠ b)) :=
    List.mem_filter.mpr ⟨List.mem_filter.mpr ⟨hc, decide_eq_true hca⟩, decide_eq_true hcb⟩
  have h3 := le_sum_of_mem _ (rankCount cards) c hcm
  have h4 := sum_rankCount cards
  omega

/-- Claim C2: on a 7-card input with two ranks of multiplicity three (no
four-of-a-kind is then possible and no straight flush is assumed, as the
claim states), `evaluate_7` yields category 6 with tiebreak (highest trip
rank, second trip rank); on the fixture Ah Ad Ac Kh Kd Kc 2d it yields
(6, (14, 13)); and with one trip plus at least one pair it yields
(6, (trip rank, highest pair rank)). -/
theorem C2_full_house :
    (∀ (cards : List Nat) (r1 r2 : Nat), cards.length = 7 → r2 < r1 →
      rankCount cards r1 = 3 → rankCount cards r2 = 3 → sf_high_of cards = 0 →
      evaluate_7 cards = some (6, [r1, r2])) ∧
    evaluate_7 [38, 25, 12, 37, 24, 11, 13] = some (6, [14, 13]) ∧
    (∀ (cards : List Nat) (t : Nat), cards.length = 7 →
      rankCount cards t = 3 → (∀ r ∈ descRanks, rankCount cards r = 3 → r = t) →
      (∃ p, rankCount cards p = 2) → sf_high_of cards = 0 →
      ∃ pm, rankCount cards pm = 2 ∧ (∀ r, rankCount cards r = 2 → r ≤ pm) ∧
        evaluate_7 cards = some (6, [t, pm])) := by
  refine ⟨?_, by decide, ?_⟩
  · intro cards r1 r2 h7 hlt h1 h2 hsf
    have hr1d : r1 ∈ descRanks := mem_descRanks_of_pos cards r1 (by omega)
    have hr2d : r2 ∈ descRanks := mem_descRanks_of_pos cards r2 (by omega)
    have hne : r2 ≠ r1 := by omega
    have hq : quads cards = [] := by
      rw [quads, List.filter_eq_nil_iff]
      intro r hrd hr4
      have hr4' : rankCount cards r = 4 := of_decide_eq_true hr4
      have hrne1 : r ≠ r1 := by intro h; rw [h] at hr4'; omega
      have hrne2 : r ≠ r2 := by intro h; rw [h] at hr4'; omega
      have := three_counts_le cards r1 r2 r hne hrne1 hrne2 hr1d hr2d hrd
      omega
    have ht : trips cards = [r1, r2] := by
      rw [trips]
      apply filter_eq_pair_of descRanks _ r1 r2 descRanks_sorted hr1d hr2d hlt
      intro x hx
      constructor
      · intro hpx
        have hx3 : rankCount cards x = 3 := of_decide_eq_true hpx
        by_contra hcon
        push_neg at hcon
        have := three_counts_le cards r1 r2 x hne hcon.1 hcon.2 hr1d hr2d hx
        omega
      · intro h
        rcases h with rfl | rfl
        · exact decide_eq_true h1
        · exact decide_eq_true h2
    exact evaluate_7_fh_two_red cards r1 r2 [] hsf hq ht
  · rintro cards t h7 ht3 huniq ⟨p0, hp0⟩ hsf
    have htd : t ∈ descRanks := mem_descRanks_of_pos cards t (by omega)
    have hp0d : p0 ∈ descRanks := mem_descRanks_of_pos cards p0 (by omega)
    have hp0t : p0 ≠ t := by intro h; rw [h, ht3] at hp0; omega
    have hq : quads cards = [] := by
      rw [quads, List.filter_eq_nil_iff]
      intro r hrd hr4
      have hr4' : rankCount cards r = 4 := of_decide_eq_true hr4
      have hrt : r ≠ t := by intro h; rw [h, ht3] at hr4'; omega
      have hrp : r ≠ p0 := by intro h; rw [h, hp0] at hr4'; omega
      have := three_counts_le cards t p0 r hp0t hrt hrp htd hp0d hrd
      omega
    have htrips : trips cards = [t] := by
      rw [trips]
      apply filter_eq_single_of descRanks _ t descRanks_sorted htd
      intro x hx
      constructor
      · intro hpx
        exact huniq x hx (of_decide_eq_true hpx)
      · intro h
        rw [h]
        exact decide_eq_true ht3
    have hp0mem : p0 ∈ pairs cards := List.mem_filter.mpr ⟨hp0d, decide_eq_true hp0⟩
    obtain ⟨pm, pt, hpe⟩ := List.exists_cons_of_ne_nil (List.ne_nil_of_mem hp0mem)
    have hpe' : descRanks.filter (fun r => decide (rankCount cards r = 2)) = pm :: pt := by
      rw [← pairs]
      exact hpe
    obtain ⟨hpmP, hpmMax⟩ := filter_head_max descRanks _ descRanks_sorted pm pt hpe'
    have hpm2 : rankCount cards pm = 2 := of_decide_eq_true hpmP
    refine ⟨pm, hpm2, ?_, ?_⟩
    · intro r hr2
      have hrd : r ∈ descRanks := mem_descRanks_of_pos cards r (by omega)
      exact hpmMax r hrd (decide_eq_true hr2)
    · exact evaluate_7_fh_one_red cards t pm pt hsf hq htrips hpe

/-- Witness for C2: both universally quantified parts applied at the
spec's fixtures (Ah Ad Ac Kh Kd Kc 2d and Ah Ad Ac Kh Kd 2c 3d). -/
theorem C2_witness :
    evaluate_7 [38, 25, 12, 37, 24, 11, 13] = some (6, [14, 13]) ∧
    (∃ pm, rankCount [38, 25, 12, 37, 24, 0, 14] pm = 2 ∧
      (∀ r, rankCount [38, 25, 12, 37, 24, 0, 14] r = 2 → r ≤ pm) ∧
      evaluate_7 [38, 25, 12, 37, 24, 0, 14] = some (6, [14, pm])) :=
  ⟨C2_full_house.1 [38, 25, 12, 37, 24, 11, 13] 14 13 (by decide) (by decide)
      (by decide) (by decide) (by decide),
    C2_full_house.2.2 [38, 25, 12, 37, 24, 0, 14] 14 (by decide) (by decide)
      (by decide) ⟨13, by decide⟩ (by decide)⟩

/-- Claim C10: on 7 distinct card values below 52 the evaluator is total
(every branch's sequence accesses are in bounds, so no `none` arises), and
in the high-card branch the tiebreak indeed holds five distinct ranks. -/
theorem C10_evaluate_7_total (cards : List Nat) (h7 : cards.length = 7)
    (hnd : cards.Nodup) (hv : ∀ c ∈ cards, c < 52) :
    ∃ res, evaluate_7 cards = some res ∧ (res.1 = 0 → res.2.length = 5) :=
  evaluate_7_total cards h7 hnd hv

/-- Witness for C10: a concrete high-card hand (2c 4d 6h 8s Tc Qd Ah). -/
theorem C10_witness :
    ∃ res, evaluate_7 [0, 15, 30, 45, 8, 23, 38] = some res ∧
      (res.1 = 0 → res.2.length = 5) :=
  C10_evaluate_7_total [0, 15, 30, 45, 8, 23, 38] (by decide) (by decide) (by decide)

/-- Claim C6: Ac 2c 3c 4c 5c 9h 9d evaluates to category 8 with tiebreak
(5,): the flush suit is clubs, the ace sets the synthetic rank-1 bit of
the flush-suit mask, and the steel-wheel straight flush is found with
high card 5. -/
theorem C6_steel_wheel :
    evaluate_7 [12, 0, 1, 2, 3, 33, 20] = some (8, [5]) ∧
    flush_suit_of [12, 0, 1, 2, 3, 33, 20] = some 0 ∧
    flush_mask [12, 0, 1, 2, 3, 33, 20] 0 &&& (1 <<< 1) = (1 <<< 1) ∧
    straight_high_from_ranks_mask (flush_mask [12, 0, 1, 2, 3, 33, 20] 0) = 5 := by
  decide

/-! ### The opponent scan -/

lemma opp_loop_spec (fb : List Nat) (he : Nat × List Nat) :
    ∀ (ocs : List (List Nat)) (bc0 : Int) (nb0 : Nat),
    (∀ oc ∈ ocs, (evaluate_7 (oc ++ fb)).isSome) →
    opp_loop fb he ocs bc0 nb0 =
      if ocs.any (beatsB fb he) then some (-1, 1)
      else some ((if ocs.any (tiesB fb he) then 0 else bc0),
        nb0 + ocs.countP (tiesB fb he)) := by
  intro ocs
  induction ocs with
  | nil =>
    intro bc0 nb0 _
    simp [opp_loop]
  | cons oc rest ih =>
    intro bc0 nb0 hall
    obtain ⟨oe, hoe⟩ := Option.isSome_iff_exists.mp (hall oc (List.mem_cons_self _ _))
    have hrest : ∀ x ∈ rest, (evaluate_7 (x ++ fb)).isSome :=
      fun x hx => hall x (List.mem_cons_of_mem _ hx)
    have hbeats : beatsB fb he oc = decide (0 < compare_hands oe he) := by
      rw [beatsB, hoe]
    have hties : tiesB fb he oc = decide (compare_hands oe he = 0) := by
      rw [tiesB, hoe]
    simp only [opp_loop, hoe]
    by_cases hgt : 0 < compare_hands oe he
    · rw [if_pos hgt]
      have hany : (oc :: rest).any (beatsB fb he) = true := by
        simp [List.any_cons, hbeats, hgt]
      rw [hany]
      simp
    · rw [if_neg hgt]
      have hb : beatsB fb he oc = false := by
        rw [hbeats]
        simp [hgt]
      by_cases heq : compare_hands oe he = 0
      · rw [if_pos heq, ih 0 (nb0 + 1) hrest]
        have htt : tiesB fb he oc = true := by
          rw [hties]
          simp [heq]
        have harith : nb0 + 1 + rest.countP (tiesB fb he) =
            nb0 + ((oc :: rest).countP (tiesB fb he)) := by
          rw [List.countP_cons, htt]
          simp
          omega
        simp only [List.any_cons, hb, htt, Bool.false_or, Bool.true_or, ite_self, harith]
        rcases rest.any (beatsB fb he) with _ | _ <;> simp
      · rw [if_neg heq, ih bc0 nb0 hrest]
        have htt : tiesB fb he oc = false := by
          rw [hties]
          simp [heq]
        simp only [List.any_cons, hb, htt, Bool.false_or, List.countP_cons]
        simp

lemma opp_loop_nb_pos (fb : List Nat) (he : Nat × List Nat) :
    ∀ (ocs : List (List Nat)) (bc0 : Int) (nb0 : Nat) (bc' : Int) (nb' : Nat),
    1 ≤ nb0 → opp_loop fb he ocs bc0 nb0 = some (bc', nb') → 1 ≤ nb' := by
  intro ocs
  induction ocs with
  | nil =>
    intro bc0 nb0 bc' nb' h1 h
    simp only [opp_loop, Option.some.injEq, Prod.mk.injEq] at h
    omega
  | cons oc rest ih =>
    intro bc0 nb0 bc' nb' h1 h
    simp only [opp_loop] at h
    rcases hoe : evaluate_7 (oc ++ fb) with _ | oe
    · simp [hoe] at h
    · simp only [hoe] at h
      by_cases hgt : 0 < compare_hands oe he
      · rw [if_pos hgt] at h
        simp only [Option.some.injEq, Prod.mk.injEq] at h
        omega
      · rw [if_neg hgt] at h
        by_cases heq : compare_hands oe he = 0
        · rw [if_pos heq] at h
          exact ih 0 (nb0 + 1) bc' nb' (by omega) h
        · rw [if_neg heq] at h
          exact ih bc0 nb0 bc' nb' h1 h

lemma simulate_iteration_cases (hero fb : List Nat) (opps : List (List Nat))
    (dw dt dl : Nat) (de : ℚ)
    (h : simulate_iteration hero fb opps = some ((dw, dt, dl), de)) :
    dw + dt + dl = 1 ∧ 0 ≤ de ∧ (dw : ℚ) ≤ de ∧ de ≤ 1 := by
  rw [simulate_iteration] at h
  rcases hhe : evaluate_7 (hero ++ fb) with _ | he
  · simp [hhe] at h
  simp only [hhe] at h
  rcases hol : opp_loop fb he opps 1 1 with _ | ⟨bc, nb⟩
  · simp [hol] at h
  simp only [hol] at h
  have hnb : 1 ≤ nb := opp_loop_nb_pos fb he opps 1 1 bc nb (by omega) hol
  have hnbq : (1 : ℚ) ≤ (nb : ℚ) := by exact_mod_cast hnb
  by_cases h1 : bc = 1
  · rw [if_pos h1] at h
    simp only [Option.some.injEq, Prod.mk.injEq] at h
    obtain ⟨⟨e1, e2, e3⟩, e4⟩ := h
    subst e1 e2 e3 e4
    norm_num
  rw [if_neg h1] at h
  by_cases h0 : bc = 0
  · rw [if_pos h0] at h
    simp only [Option.some.injEq, Prod.mk.injEq] at h
    obtain ⟨⟨e1, e2, e3⟩, e4⟩ := h
    subst e1 e2 e3 e4
    refine ⟨by omega, ?_, ?_, ?_⟩
    · positivity
    · simp only [Nat.cast_zero]
      positivity
    · rw [div_le_one (by linarith)]
      linarith
  · rw [if_neg h0] at h
    simp only [Option.some.injEq, Prod.mk.injEq] at h
    obtain ⟨⟨e1, e2, e3⟩, e4⟩ := h
    subst e1 e2 e3 e4
    norm_num

/-- Loop invariant of `sim_loop`: counts grow by exactly one per
iteration, and the equity shares grow by at least the win count and at
most one per iteration. -/
lemma sim_loop_spec (hero board : List Nat) (n_opponents : Nat) (base_deck : List Nat)
    (need_cards : Int) (draws : Nat → List Nat) :
    ∀ (k i : Nat) (w t l : Nat) (es : ℚ) (w' t' l' : Nat) (es' : ℚ),
    sim_loop hero board n_opponents base_deck need_cards draws k i (w, t, l, es) =
      .ok (w', t', l', es') →
    w' + t' + l' = w + t + l + k ∧ (w' : ℚ) - (w : ℚ) ≤ es' - es ∧
      0 ≤ es' - es ∧ es' - es ≤ (k : ℚ) := by
  intro k
  induction k with
  | zero =>
    intro i w t l es w' t' l' es' h
    simp only [sim_loop, Except.ok.injEq, Prod.mk.injEq] at h
    obtain ⟨e1, e2, e3, e4⟩ := h
    subst e1 e2 e3 e4
    norm_num
  | succ k ih =>
    intro i w t l es w' t' l' es' h
    simp only [sim_loop] at h
    by_cases hcond : 0 ≤ need_cards ∧ need_cards ≤ (base_deck.length : Int)
    · rw [if_pos hcond] at h
      rcases hit : simulate_iteration hero
          (board ++ (draws i).drop (n_opponents * 2))
          ((List.range n_opponents).map fun j => ((draws i).drop (j * 2)).take 2)
        with _ | ⟨⟨dw, dt, dl⟩, de⟩
      · simp [hit] at h
      · simp only [hit] at h
        obtain ⟨hsum, h0, hw, hle⟩ := simulate_iteration_cases _ _ _ _ _ _ _ hit
        obtain ⟨a1, a2, a3, a4⟩ := ih (i + 1) (w + dw) (t + dt) (l + dl) (es + de)
          w' t' l' es' h
        refine ⟨by omega, ?_, ?_, ?_⟩
        · push_cast at a2 ⊢
          linarith
        · push_cast at a2 a3 ⊢
          linarith
        · push_cast at a4 ⊢
          linarith
    · rw [if_neg hcond] at h
      cases h

/-- Claim C3: a successful `simulate_equity` run with at least one
iteration has counts summing to the iteration total, `win_rate` equal to
`wins / iterations`, and `0 ≤ win_rate ≤ equity ≤ 1`. -/
theorem C3_result_invariants (hero board : List Nat) (n_opponents : Nat)
    (iterations : Int) (draws : Nat → List Nat) (res : SimResult)
    (h1 : 1 ≤ iterations)
    (hok : simulate_equity hero board n_opponents iterations draws = .ok res) :
    (res.wins : Int) + res.ties + res.losses = iterations ∧
    res.win_rate = (res.wins : ℚ) / (iterations : ℚ) ∧
    0 ≤ res.win_rate ∧ res.win_rate ≤ res.equity ∧ res.equity ≤ 1 := by
  rw [simulate_equity] at hok
  split at hok
  · simp at hok
  next w t l es heq =>
    rw [if_neg (by omega : ¬ iterations = 0)] at hok
    simp only [Except.ok.injEq] at hok
    subst hok
    obtain ⟨a1, a2, a3, a4⟩ := sim_loop_spec hero board n_opponents _ _ draws
      iterations.toNat 0 0 0 0 0 w t l es heq
    have htn : (iterations.toNat : Int) = iterations := Int.toNat_of_nonneg (by omega)
    have hq : ((iterations.toNat : Nat) : ℚ) = (iterations : ℚ) := by
      rw [← htn]
      push_cast
      rfl
    have hwes : (w : ℚ) ≤ es := by
      push_cast at a2
      linarith
    have hes0 : 0 ≤ es := by linarith
    have hesle : es ≤ (iterations : ℚ) := by
      rw [← hq]
      linarith
    have hpos : (0 : ℚ) < (iterations : ℚ) := by
      have : ((1 : Int) : ℚ) ≤ (iterations : ℚ) := by exact_mod_cast h1
      push_cast at this
      linarith
    refine ⟨?_, rfl, ?_, ?_, ?_⟩
    · show (w : Int) + (t : Int) + (l : Int) = iterations
      omega
    · show (0 : ℚ) ≤ (w : ℚ) / (iterations : ℚ)
      exact div_nonneg (by positivity) (le_of_lt hpos)
    · show (w : ℚ) / (iterations : ℚ) ≤ es / (iterations : ℚ)
      exact (div_le_div_iff_of_pos_right hpos).mpr hwes
    · show es / (iterations : ℚ) ≤ 1
      rw [div_le_one hpos]
      exact hesle

lemma evaluate_7_isSome (cards : List Nat) (h7 : cards.length = 7)
    (hnd : cards.Nodup) (hv : ∀ c ∈ cards, c < 52) : (evaluate_7 cards).isSome := by
  obtain ⟨res, hres, _⟩ := evaluate_7_total cards h7 hnd hv
  rw [hres]
  rfl

/-- Claim C1: on a fixed draw (hero hand, completed 5-card board, each
opponent's hole cards, all distinct), the iteration is a loss exactly when
some opponent's evaluation strictly beats the hero's; otherwise, with
`k = 1 +` the number of opponents tying the hero, `k = 1` gives a win with
equity share 1 and `k > 1` a tie with share `1/k`; and exactly one of the
three counters is incremented. -/
theorem C1_iteration_classification (hero board : List Nat) (opps : List (List Nat))
    (hh : hero.length = 2) (hb : board.length = 5)
    (ho : ∀ oc ∈ opps, oc.length = 2)
    (hv : ∀ c ∈ hero ++ (board ++ opps.flatten), c < 52)
    (hnd : (hero ++ (board ++ opps.flatten)).Nodup) :
    ∃ he w t l q, evaluate_7 (hero ++ board) = some he ∧
      simulate_iteration hero board opps = some ((w, t, l), q) ∧
      w + t + l = 1 ∧
      (l = 1 ↔ ∃ oc ∈ opps, beatsB board he oc = true) ∧
      (l = 0 →
        (1 + opps.countP (tiesB board he) = 1 → w = 1 ∧ t = 0 ∧ q = 1) ∧
        (1 < 1 + opps.countP (tiesB board he) →
          t = 1 ∧ w = 0 ∧ q = 1 / ((1 + opps.countP (tiesB board he) : Nat) : ℚ))) := by
  have hnd1 : (hero ++ board).Nodup := by
    have hsub : List.Sublist (hero ++ board) (hero ++ (board ++ opps.flatten)) :=
      (List.sublist_append_left board opps.flatten).append_left hero
    exact hnd.sublist hsub
  have hv1 : ∀ c ∈ hero ++ board, c < 52 := by
    intro c hc
    apply hv
    simp only [List.mem_append] at hc ⊢
    tauto
  have hlen1 : (hero ++ board).length = 7 := by
    rw [List.length_append, hh, hb]
  have hheS := evaluate_7_isSome _ hlen1 hnd1 hv1
  obtain ⟨he, hhe⟩ := Option.isSome_iff_exists.mp hheS
  have h2 : (board ++ opps.flatten).Nodup :=
    hnd.sublist (List.sublist_append_right hero _)
  rw [List.nodup_append] at h2
  obtain ⟨hbnd, hfnd, hdisj⟩ := h2
  have hoppS : ∀ oc ∈ opps, (evaluate_7 (oc ++ board)).isSome := by
    intro oc hoc
    have hocsub : List.Sublist oc opps.flatten := List.sublist_flatten_of_mem hoc
    apply evaluate_7_isSome
    · rw [List.length_append, ho oc hoc, hb]
    · rw [List.nodup_append]
      refine ⟨hfnd.sublist hocsub, hbnd, ?_⟩
      intro a ha hab
      exact hdisj hab (hocsub.subset ha)
    · intro c hc
      apply hv
      simp only [List.mem_append] at hc ⊢
      rcases hc with h | h
      · exact Or.inr (Or.inr (hocsub.subset h))
      · exact Or.inr (Or.inl h)
  have hscan := opp_loop_spec board he opps 1 1 hoppS
  by_cases hbeat : opps.any (beatsB board he) = true
  · refine ⟨he, 0, 0, 1, 0, hhe, ?_, by omega, ?_, ?_⟩
    · rw [simulate_iteration]
      simp only [hhe]
      rw [hscan, if_pos hbeat]
      norm_num
    · exact iff_of_true rfl (List.any_eq_true.mp hbeat)
    · intro h
      exact absurd h (by decide)
  · by_cases hties : opps.any (tiesB board he) = true
    · have hkpos : 0 < opps.countP (tiesB board he) := by
        obtain ⟨x, hx, hpx⟩ := List.any_eq_true.mp hties
        exact List.countP_pos_iff.mpr ⟨x, hx, hpx⟩
      refine ⟨he, 0, 1, 0,
        1 / ((1 + opps.countP (tiesB board he) : Nat) : ℚ), hhe, ?_, by omega, ?_, ?_⟩
      · rw [simulate_iteration]
        simp only [hhe]
        rw [hscan, if_neg hbeat, if_pos hties]
        norm_num
      · refine iff_of_false (by decide) ?_
        intro ⟨oc, hoc, hpoc⟩
        exact hbeat (List.any_eq_true.mpr ⟨oc, hoc, hpoc⟩)
      · intro _
        constructor
        · intro h1
          exfalso
          omega
        · intro _
          exact ⟨rfl, rfl, rfl⟩
    · have hk0 : opps.countP (tiesB board he) = 0 := by
        rcases Nat.eq_zero_or_pos (opps.countP (tiesB board he)) with h | h
        · exact h
        · obtain ⟨x, hx, hpx⟩ := List.countP_pos_iff.mp h
          exact absurd (List.any_eq_true.mpr ⟨x, hx, hpx⟩) hties
      refine ⟨he, 1, 0, 0, 1, hhe, ?_, by omega, ?_, ?_⟩
      · rw [simulate_iteration]
        simp only [hhe]
        rw [hscan, if_neg hbeat, if_neg hties]
        norm_num
      · refine iff_of_false (by decide) ?_
        intro ⟨oc, hoc, hpoc⟩
        exact hbeat (List.any_eq_true.mpr ⟨oc, hoc, hpoc⟩)
      · intro _
        constructor
        · intro _
          exact ⟨rfl, rfl, rfl⟩
        · intro hgt
          exfalso
          omega

/-- Witness for C1: hero 2c 3c, board 2d 3d 4d 5d 6d, one opponent with
2h 3h — the board's straight flush plays for everyone, a two-way tie. -/
theorem C1_witness :
    ∃ he w t l q, evaluate_7 ([0, 1] ++ [13, 14, 15, 16, 17]) = some he ∧
      simulate_iteration [0, 1] [13, 14, 15, 16, 17] [[26, 27]] = some ((w, t, l), q) ∧
      w + t + l = 1 ∧
      (l = 1 ↔ ∃ oc ∈ [[26, 27]], beatsB [13, 14, 15, 16, 17] he oc = true) ∧
      (l = 0 →
        (1 + List.countP (tiesB [13, 14, 15, 16, 17] he) [[26, 27]] = 1 →
          w = 1 ∧ t = 0 ∧ q = 1) ∧
        (1 < 1 + List.countP (tiesB [13, 14, 15, 16, 17] he) [[26, 27]] →
          t = 1 ∧ w = 0 ∧ q = 1 /
            ((1 + List.countP (tiesB [13, 14, 15, 16, 17] he) [[26, 27]] : Nat) : ℚ))) :=
  C1_iteration_classification [0, 1] [13, 14, 15, 16, 17] [[26, 27]]
    (by decide) (by decide) (by decide) (by decide) (by decide)

/-- Amended claim C4: for every call with `iterations ≥ 1` whose card
requirement exceeds the remaining deck, the run fails with the sampler's
bound error, raised at the first iteration before the draw oracle is
consulted (the result does not depend on `draws`), with no iteration
counted. -/
theorem C4_amended (hero board : List Nat) (n_opponents : Nat) (iterations : Int)
    (draws : Nat → List Nat) (h1 : 1 ≤ iterations)
    (hneed : ((deck_without (hero ++ board)).length : Int) <
      (n_opponents : Int) * 2 + (5 - (board.length : Int))) :
    simulate_equity hero board n_opponents iterations draws = .error .sampleError := by
  rw [simulate_equity]
  have hk : iterations.toNat = (iterations.toNat - 1) + 1 := by omega
  rw [hk]
  simp only [sim_loop]
  rw [if_neg (by omega)]

/-- Counterexample to claim C4 as stated: with 24 opponents and an empty
board the requirement (53) exceeds the 50-card remaining deck, yet a call
with `iterations = -1` does not fail at all — it returns a result. -/
theorem C4_counterexample :
    ((deck_without ([0, 1] ++ ([] : List Nat))).length : Int) <
      ((24 : Nat) : Int) * 2 + (5 - (([] : List Nat).length : Int)) ∧
    simulate_equity [0, 1] [] 24 (-1) (fun _ => []) = .ok ⟨0, 0, 0, 0, 0⟩ := by
  constructor
  · decide
  · have h : simulate_equity [0, 1] [] 24 (-1) (fun _ => []) =
        .ok ⟨((0 : Nat) : ℚ) / ((-1 : Int) : ℚ), (0 : ℚ) / ((-1 : Int) : ℚ), 0, 0, 0⟩ := rfl
    rw [h]
    norm_num

/-- Witness for the amended C4: 24 opponents, empty board, one iteration. -/
theorem C4_witness :
    simulate_equity [0, 1] [] 24 1 (fun _ => []) = .error .sampleError :=
  C4_amended [0, 1] [] 24 1 (fun _ => []) (by norm_num) (by decide)

/-- Amended claim C5: a call with `iterations = 0` fails — with the
division-by-zero error from `wins / iterations`, not a dedicated
iteration-count error — while a call with `iterations < 0` does not fail:
the loop body never runs and it returns a result with zero counts and
zero rates. -/
theorem C5_amended (hero board : List Nat) (n_opponents : Nat) (draws : Nat → List Nat)
    (iterations : Int) :
    (iterations = 0 →
      simulate_equity hero board n_opponents iterations draws = .error .zeroDivision) ∧
    (iterations < 0 →
      simulate_equity hero board n_opponents iterations draws = .ok ⟨0, 0, 0, 0, 0⟩) := by
  constructor
  · intro h0
    subst h0
    rw [simulate_equity]
    simp [sim_loop]
  · intro hneg
    rw [simulate_equity]
    have h0 : iterations.toNat = 0 := by omega
    rw [h0]
    simp only [sim_loop]
    rw [if_neg (by omega : ¬ iterations = 0)]
    have hz : ((0 : Nat) : ℚ) / (iterations : ℚ) = 0 := by
      norm_num
    simp [hz]

/-- Counterexample to claim C5 as stated: `iterations = -3 ≤ 0`, yet the
call returns a result instead of failing. -/
theorem C5_counterexample :
    (-3 : Int) ≤ 0 ∧
    simulate_equity [0, 1] [2, 3, 4] 1 (-3) (fun _ => []) = .ok ⟨0, 0, 0, 0, 0⟩ := by
  constructor
  · decide
  · have h : simulate_equity [0, 1] [2, 3, 4] 1 (-3) (fun _ => []) =
        .ok ⟨((0 : Nat) : ℚ) / ((-3 : Int) : ℚ), (0 : ℚ) / ((-3 : Int) : ℚ), 0, 0, 0⟩ := rfl
    rw [h]
    norm_num

/-- Witness for the amended C5 at concrete inputs: zero iterations fail
with the division error, negative iterations return the zero result. -/
theorem C5_witness :
    simulate_equity [0, 1] [] 0 0 (fun _ => []) = .error .zeroDivision ∧
    simulate_equity [0, 1] [] 0 (-2) (fun _ => []) = .ok ⟨0, 0, 0, 0, 0⟩ :=
  ⟨(C5_amended [0, 1] [] 0 (fun _ => []) 0).1 rfl,
   (C5_amended [0, 1] [] 0 (fun _ => []) (-2)).2 (by norm_num)⟩

/-! ### Parsing and formatting -/

lemma idxOf?_isSome_iff (l : List Char) (c : Char) :
    (idxOf? l c).isSome = true ↔ c ∈ l := by
  induction l with
  | nil => simp [idxOf?]
  | cons x xs ih =>
    rw [idxOf?]
    by_cases hx : x = c
    · rw [if_pos hx]
      simp [hx]
    · rw [if_neg hx]
      rw [List.mem_cons]
      have hmap : (Option.map (· + 1) (idxOf? xs c)).isSome = (idxOf? xs c).isSome := by
        rcases idxOf? xs c with _ | j <;> rfl
      rw [hmap, ih]
      constructor
      · exact fun h => Or.inr h
      · rintro (h | h)
        · exact absurd h.symm hx
        · exact h

lemma idxOf?_some (l : List Char) (c : Char) :
    ∀ i, idxOf? l c = some i → i < l.length ∧ l.getD i '?' = c := by
  induction l with
  | nil => intro i h; simp [idxOf?] at h
  | cons x xs ih =>
    intro i h
    rw [idxOf?] at h
    by_cases hx : x = c
    · rw [if_pos hx] at h
      simp only [Option.some.injEq] at h
      subst h
      simp [hx]
    · rw [if_neg hx] at h
      rcases hxs : idxOf? xs c with _ | j
      · rw [hxs] at h
        cases h
      · rw [hxs] at h
        simp only [Option.map_some', Option.some.injEq] at h
        subst h
        obtain ⟨hj1, hj2⟩ := ih j hxs
        constructor
        · simp only [List.length_cons]
          omega
        · simpa using hj2

lemma format_cards_singleton (c : Nat) : format_cards [c] = format_card c := by
  simp [format_cards, List.intercalate]

/-- Counterexample to claim C7 as stated: the suit letter is
case-insensitive ('A','H' parses although 'H' is not a lowercase suit
character) and surrounding whitespace is stripped (a 3-character token
parses). -/
theorem C7_counterexample :
    parse_ok ['A', 'H'] = true ∧ 'H' ∉ SUITS ∧
    parse_ok [' ', 'A', 'h'] = true ∧ ([' ', 'A', 'h'] : List Char).length ≠ 2 := by
  decide

/-- Amended claim C7: `card_str_to_int` succeeds exactly on tokens that,
after stripping surrounding whitespace, are two characters whose
upper-cased first character is in `RANKS` and whose lower-cased second
character is in `SUITS` (both case-insensitive); it fails on every other
token. -/
theorem C7_amended (tok : List Char) :
    parse_ok tok = true ↔
      ∃ c0 c1, pyStrip tok = [c0, c1] ∧ pyUpper c0 ∈ RANKS ∧ pyLower c1 ∈ SUITS := by
  rw [parse_ok, card_str_to_int]
  rcases hs : pyStrip tok with _ | ⟨c0, rest⟩
  · simp
  rcases rest with _ | ⟨c1, rest2⟩
  · simp
  rcases rest2 with _ | ⟨c2, rest3⟩
  · constructor
    · intro h
      rcases hri : idxOf? RANKS (pyUpper c0) with _ | ri
      · simp [hri] at h
      rcases hsi : idxOf? SUITS (pyLower c1) with _ | si
      · simp [hri, hsi] at h
      refine ⟨c0, c1, rfl, ?_, ?_⟩
      · exact (idxOf?_isSome_iff _ _).mp (by rw [hri]; rfl)
      · exact (idxOf?_isSome_iff _ _).mp (by rw [hsi]; rfl)
    · rintro ⟨d0, d1, heq, hr, hsu⟩
      obtain ⟨e0, e1⟩ : c0 = d0 ∧ c1 = d1 := by
        injection heq with f0 f1
        injection f1 with f1 _
        exact ⟨f0, f1⟩
      subst e0 e1
      obtain ⟨ri, hri⟩ := Option.isSome_iff_exists.mp ((idxOf?_isSome_iff _ _).mpr hr)
      obtain ⟨si, hsi⟩ := Option.isSome_iff_exists.mp ((idxOf?_isSome_iff _ _).mpr hsu)
      simp [hri, hsi]
  · simp

/-- Claim C9: whenever `card_str_to_int` accepts a token, formatting the
parsed card gives the canonical two-character form — upper-case rank
character then lower-case suit character — of the stripped token. -/
theorem C9_format_roundtrip (tok : List Char) (c : Nat)
    (hok : card_str_to_int tok = .ok c) :
    ∃ c0 c1, pyStrip tok = [c0, c1] ∧
      format_cards [c] = [pyUpper c0, pyLower c1] := by
  rw [card_str_to_int] at hok
  rcases hs : pyStrip tok with _ | ⟨c0, rest⟩
  · rw [hs] at hok
    cases hok
  rcases rest with _ | ⟨c1, rest2⟩
  · rw [hs] at hok
    cases hok
  rcases rest2 with _ | ⟨c2, rest3⟩
  · rw [hs] at hok
    rcases hri : idxOf? RANKS (pyUpper c0) with _ | ri
    · simp [hri] at hok
    rcases hsi : idxOf? SUITS (pyLower c1) with _ | si
    · simp [hri, hsi] at hok
    simp only [hri, hsi, Except.ok.injEq] at hok
    subst hok
    obtain ⟨hriB, hriV⟩ := idxOf?_some RANKS (pyUpper c0) ri hri
    obtain ⟨hsiB, hsiV⟩ := idxOf?_some SUITS (pyLower c1) si hsi
    have hri13 : ri < 13 := by simpa [RANKS] using hriB
    have hmod : (si * 13 + ri) % 13 = ri := by omega
    have hdiv : (si * 13 + ri) / 13 = si := by omega
    refine ⟨c0, c1, rfl, ?_⟩
    rw [format_cards_singleton, format_card, hmod, hdiv, hriV, hsiV]
  · rw [hs] at hok
    cases hok

/-- Witness for C9 at the token "aH" (lower-case rank, upper-case suit):
it parses to card 38 and formats back as "Ah". -/
theorem C9_witness :
    ∃ c0 c1, pyStrip ['a', 'H'] = [c0, c1] ∧
      format_cards [38] = [pyUpper c0, pyLower c1] :=
  C9_format_roundtrip ['a', 'H'] 38 (by decide)

/-- Counterexample to claim C8 as stated: with `n = 0` and `p = 1/2` the
interval is `(1/2, 1/2)`, not `(0, 0)`. -/
theorem C8_counterexample :
    ci (fun _ => 0) 0 (1 / 2) = (1 / 2, 1 / 2) ∧
      ((1 / 2 : ℚ), (1 / 2 : ℚ)) ≠ ((0 : ℚ), (0 : ℚ)) := by
  constructor
  · norm_num [ci]
  · norm_num

/-- Amended claim C8: with `n = 0` the division by zero is guarded
(`se = 0`) and the interval degenerates to the zero-width interval at `p`
clamped to [0,1] — `(max 0 p, min 1 p)` — which is `(0, 0)` only for
`p ≤ 0`. -/
theorem C8_amended (sqrtf : ℚ → ℚ) (p : ℚ) :
    ci sqrtf 0 p = (max 0 p, min 1 p) := by
  rw [ci]
  norm_num

/-- Witness for C3: one iteration, no opponents, complete board — the
hero wins outright, so `wins = 1`, `win_rate = equity = 1`. -/
theorem C3_witness :
    (((1 : Nat) : Int) + ((0 : Nat) : Int) + ((0 : Nat) : Int) = (1 : Int)) ∧
    ((1 : ℚ) = ((1 : Nat) : ℚ) / ((1 : Int) : ℚ)) ∧
    (0 : ℚ) ≤ (1 : ℚ) ∧ (1 : ℚ) ≤ (1 : ℚ) ∧ (1 : ℚ) ≤ 1 := by
  have hok : simulate_equity [0, 1] [2, 3, 4, 5, 6] 0 1 (fun _ => []) =
      .ok ⟨1, 1, 1, 0, 0⟩ := by
    have h : simulate_equity [0, 1] [2, 3, 4, 5, 6] 0 1 (fun _ => []) =
        .ok ⟨((1 : Nat) : ℚ) / ((1 : Int) : ℚ), ((0 : ℚ) + 1) / ((1 : Int) : ℚ), 1, 0, 0⟩ := rfl
    rw [h]
    norm_num
  exact C3_result_invariants [0, 1] [2, 3, 4, 5, 6] 0 1 (fun _ => [])
    ⟨1, 1, 1, 0, 0⟩ (by norm_num) hok
